import Mathlib

/-!
# Verification of the openFDA shortage-tracker snapshot-diff engine

Shallow embedding of `srcs/openfda_shortage_tracker.py`: JSON values are an
inductive type, Python dicts are insertion-ordered association lists, and the
comparison used by the code (`==` on parsed JSON values) is modelled by `pyEq`,
which mirrors CPython object equality on JSON-derived data: dictionaries
compare as unordered key/value maps and `True == 1`, `False == 0`.
-/

namespace Tracker

/-- A JSON value as produced by `json.loads`.  Numbers are modelled as
integers (the feed's identity fields are integers or strings); objects keep
the parse/insertion order of their fields, as Python dicts do. -/
inductive Json where
  | null : Json
  | bool (b : Bool) : Json
  | num (n : Int) : Json
  | str (s : String) : Json
  | arr (items : List Json) : Json
  | obj (fields : List (String × Json)) : Json

/-- A raw record from the feed: a Python dict mapping field names to JSON
values (`dict[str, Any]`), as an insertion-ordered association list. -/
abbrev RawRecord := List (String × Json)

/-- A snapshot: a Python dict mapping identity keys to (record) values
(`dict[str, dict[str, Any]]`), insertion-ordered. -/
abbrev Snapshot := List (String × Json)

/-- `d.get(k)` on a Python dict: the value at the first matching key. -/
def lookupJ (fields : List (String × Json)) (k : String) : Option Json :=
  match fields with
  | [] => none
  | (k', v) :: rest => if k' = k then some v else lookupJ rest k

/-- `d[k]` where the caller knows `k ∈ d` (indexing in `diff_snapshots`). -/
def getJ (fields : List (String × Json)) (k : String) : Json :=
  (lookupJ fields k).getD Json.null

/-- The keys of a dict, in insertion order (Python dict keys are unique;
`List.dedup` keeps the first occurrence, so on genuine dict states this is
the identity on the key list). -/
def keysOf (s : List (String × Json)) : List String :=
  (s.map Prod.fst).dedup

mutual

/-- CPython `==` on JSON-derived values: `None`, `str` and lists compare
structurally, `bool`/`int` compare numerically (`True == 1`), and dicts
compare as unordered maps: equal size and every key of the left dict present
in the right with an equal value. -/
def pyEq : Json → Json → Bool
  | .null, .null => true
  | .bool a, .bool b => a == b
  | .bool a, .num m => (if a then (1 : Int) else 0) == m
  | .num n, .bool b => n == (if b then (1 : Int) else 0)
  | .num n, .num m => n == m
  | .str a, .str b => a == b
  | .arr a, .arr b => pyEqList a b
  | .obj a, .obj b => a.length == b.length && pyEqFields a b
  | _, _ => false

/-- Elementwise Python `==` on lists. -/
def pyEqList : List Json → List Json → Bool
  | [], [] => true
  | x :: xs, y :: ys => pyEq x y && pyEqList xs ys
  | _, _ => false

/-- Every key of the first dict is present in the second with a
Python-equal value. -/
def pyEqFields : List (String × Json) → List (String × Json) → Bool
  | [], _ => true
  | (k, v) :: rest, b =>
      (match lookupJ b k with
       | some w => pyEq v w
       | none => false) && pyEqFields rest b

end

/-- A Python `None`-or-`""` test: membership of a dict-lookup result in the
tuple `(None, "")` as used by `_pick_first` (absent and explicit `null`
both read back as Python `None`). -/
def isEmptyVal : Option Json → Bool
  | none => true
  | some Json.null => true
  | some (Json.str "") => true
  | some _ => false

/-- `_pick_first(record, keys)`: the value at the first listed field that
is present and neither `None` nor the empty string; Python `None`
(modelled `none`) otherwise. -/
def pick_first (record : RawRecord) (keys : List String) : Option Json :=
  match keys with
  | [] => none
  | k :: rest =>
      let value := lookupJ record k
      if isEmptyVal value then pick_first record rest
      else value

/-- A lower-case hexadecimal digit. -/
def hexDigit (n : Nat) : Char :=
  if n < 10 then Char.ofNat (48 + n) else Char.ofNat (97 + n - 10)

/-- Four-digit lower-case hexadecimal rendering, as in `\uXXXX` escapes. -/
def hex4 (n : Nat) : String :=
  String.mk [hexDigit (n / 4096 % 16), hexDigit (n / 256 % 16),
             hexDigit (n / 16 % 16), hexDigit (n % 16)]

/-- `json.dumps` escaping of one character (default `ensure_ascii=True`):
quote and backslash escaped, common controls as two-character escapes, other
controls and all non-ASCII as `\uXXXX` (BMP; astral planes do not occur in
the feed's data and are out of scope). -/
def jsonEscapeChar (c : Char) : String :=
  if c = Char.ofNat 34 then "\\\""
  else if c = Char.ofNat 92 then "\\\\"
  else if c = Char.ofNat 10 then "\\n"
  else if c = Char.ofNat 9 then "\\t"
  else if c = Char.ofNat 13 then "\\r"
  else if c.toNat < 32 ∨ 126 < c.toNat then "\\u" ++ hex4 c.toNat
  else String.singleton c

/-- `json.dumps` escaping of a string body. -/
def jsonEscape (s : String) : String :=
  String.join (s.data.map jsonEscapeChar)

/-- Lexicographic comparison of character lists by code point: how Python
compares strings. -/
def charListLe : List Char → List Char → Bool
  | [], _ => true
  | _ :: _, [] => false
  | a :: as, b :: bs =>
      if a.toNat < b.toNat then true
      else if b.toNat < a.toNat then false
      else charListLe as bs

/-- Python `<=` on strings: code-point lexicographic order. -/
def strLe (a b : String) : Bool :=
  charListLe a.data b.data

/-- Insert into a sorted list, in front of the first element not below the
inserted one (stable). -/
def orderedInsert (le : α → α → Bool) (a : α) : List α → List α
  | [] => [a]
  | b :: l => if le a b then a :: b :: l else b :: orderedInsert le a l

/-- Stable insertion sort with a boolean comparison, modelling Python's
`sorted`. -/
def insertionSort (le : α → α → Bool) : List α → List α
  | [] => []
  | a :: l => orderedInsert le a (insertionSort le l)

/-- Sort a dict's fields by key ascending (`sort_keys=True`). -/
def sortFields (fields : List (String × Json)) : List (String × Json) :=
  insertionSort (fun a b => strLe a.1 b.1) fields

/-- Sort already-serialized object entries by key ascending. -/
def sortEntries (entries : List (String × String)) : List (String × String) :=
  insertionSort (fun a b => strLe a.1 b.1) entries

/-- One serialized object entry, with `json.dumps`'s default `": "`
key separator. -/
def entryStr (kv : String × String) : String :=
  "\"" ++ jsonEscape kv.1 ++ "\": " ++ kv.2

mutual

/-- `json.dumps(v, sort_keys=True)` with the default separators: the
canonical serialization used for the identity-key fallback.  Object fields
are serialized and then sorted by key (equivalent to sorting first, since
the sort only examines keys). -/
def dumps : Json → String
  | .null => "null"
  | .bool b => if b then "true" else "false"
  | .num n => toString n
  | .str s => "\"" ++ jsonEscape s ++ "\""
  | .arr items => "[" ++ dumpsList items ++ "]"
  | .obj fields =>
      "\x7b" ++ String.intercalate ", " ((sortEntries (dumpsEntries fields)).map entryStr) ++ "\x7d"

/-- Comma-joined serialization of array items. -/
def dumpsList : List Json → String
  | [] => ""
  | [x] => dumps x
  | x :: xs => dumps x ++ ", " ++ dumpsList xs

/-- Each object field with its value serialized. -/
def dumpsEntries : List (String × Json) → List (String × String)
  | [] => []
  | (k, v) :: rest => (k, dumps v) :: dumpsEntries rest

end

/-- Python `repr` of a `str`: single quotes unless the string contains a
single quote and no double quote; backslash, the chosen quote and the
common controls escaped (rarer `\xXX` escapes do not occur in feed data). -/
def pyReprStr (s : String) : String :=
  let q : Char := if s.data.contains (Char.ofNat 39) ∧ ¬ s.data.contains (Char.ofNat 34)
                  then Char.ofNat 34 else Char.ofNat 39
  let esc : Char → String := fun c =>
    if c = Char.ofNat 92 then "\\\\"
    else if c = q then "\\" ++ String.singleton q
    else if c = Char.ofNat 10 then "\\n"
    else if c = Char.ofNat 13 then "\\r"
    else if c = Char.ofNat 9 then "\\t"
    else String.singleton c
  String.singleton q ++ String.join (s.data.map esc) ++ String.singleton q

mutual

/-- Python `repr` of a JSON-derived value (used by `str()` on containers). -/
def pyRepr : Json → String
  | .null => "None"
  | .bool b => if b then "True" else "False"
  | .num n => toString n
  | .str s => pyReprStr s
  | .arr items => "[" ++ pyReprList items ++ "]"
  | .obj fields => "\x7b" ++ pyReprFields fields ++ "\x7d"

/-- Comma-joined `repr` of list items. -/
def pyReprList : List Json → String
  | [] => ""
  | [x] => pyRepr x
  | x :: xs => pyRepr x ++ ", " ++ pyReprList xs

/-- Comma-joined `repr` of dict entries. -/
def pyReprFields : List (String × Json) → String
  | [] => ""
  | [(k, v)] => pyReprStr k ++ ": " ++ pyRepr v
  | (k, v) :: rest => pyReprStr k ++ ": " ++ pyRepr v ++ ", " ++ pyReprFields rest

end

/-- Python `str()` of a JSON-derived value: identity on strings, `None` /
`True` / `False` for the singletons, decimal for integers, `repr` for
containers. -/
def pyStr : Json → String
  | .null => "None"
  | .bool b => if b then "True" else "False"
  | .num n => toString n
  | .str s => s
  | .arr items => pyRepr (.arr items)
  | .obj fields => pyRepr (.obj fields)

/-- The identity-field priority list of `_record_key`. -/
def idCandidateFields : List String :=
  ["id", "shortage_id", "shortage_number", "set_id", "application_number", "product_ndc"]

/-- `_record_key(record)`: `str()` of the first present-and-non-empty
identity candidate, else the canonical sorted serialization of the whole
record. -/
def record_key (record : RawRecord) : String :=
  match pick_first record idCandidateFields with
  | some candidate => pyStr candidate
  | none => dumps (Json.obj record)

/-- `normalize_record(record)`: the canonical six-field dict, in the source's
insertion order.  Python `None` results of `_pick_first` are the JSON `null`
of the persisted form, which is what they compare equal to. -/
def normalize_record (record : RawRecord) : Json :=
  Json.obj
    [ ("key", Json.str (record_key record)),
      ("drug_name", (pick_first record
          ["drug_name", "proprietary_name", "generic_name", "product_description"]).getD .null),
      ("status", (pick_first record
          ["status", "shortage_status", "current_status", "availability_status"]).getD .null),
      ("reason", (pick_first record
          ["reason", "reason_for_shortage", "shortage_reason"]).getD .null),
      ("last_updated", (pick_first record
          ["last_updated", "revision_date", "updated_at", "created"]).getD .null),
      ("raw", Json.obj record) ]

/-- Overwrite the value stored at key `k`, keeping every entry's position. -/
def replaceVal (k : String) (v : Json) : List (String × Json) → List (String × Json)
  | [] => []
  | (k0, v0) :: rest =>
      if k0 = k then (k0, v) :: replaceVal k v rest
      else (k0, v0) :: replaceVal k v rest

/-- Python dict assignment `d[k] = v`: overwrite in place when the key is
present (keeping its position), append otherwise. -/
def dictInsert (d : List (String × Json)) (k : String) (v : Json) : List (String × Json) :=
  if (d.map Prod.fst).contains k then replaceVal k v d
  else d ++ [(k, v)]

/-- `build_snapshot(records)`: fold the records into a dict keyed by
`normalized["key"]` (which `normalize_record` sets to `record_key record`). -/
def build_snapshot (records : List RawRecord) : Snapshot :=
  records.foldl
    (fun snapshot record => dictInsert snapshot (record_key record) (normalize_record record))
    []

/-- `sorted()` on a list of Python strings: ascending code-point order. -/
def sortStrings (keys : List String) : List String :=
  insertionSort strLe keys

/-- One entry of `diff.changed`: the dict `{key, before, after}`. -/
structure Changed where
  key : String
  before : Json
  after : Json

/-- The `SnapshotDiff` dataclass. -/
structure SnapshotDiff where
  added : List Json
  removed : List Json
  changed : List Changed

/-- The `changed` accumulation loop of `diff_snapshots`, over the sorted
common keys: emit an entry exactly when Python `!=` says the two records
differ. -/
def changedEntries (old_snapshot new_snapshot : Snapshot) : List String → List Changed
  | [] => []
  | key :: rest =>
      let old_value := getJ old_snapshot key
      let new_value := getJ new_snapshot key
      if pyEq old_value new_value then changedEntries old_snapshot new_snapshot rest
      else ⟨key, old_value, new_value⟩ :: changedEntries old_snapshot new_snapshot rest

/-- `diff_snapshots(old, new)`: set difference / intersection on the key
sets, each sorted ascending; `added` and `removed` carry the records
themselves, `changed` the before/after pairs. -/
def diff_snapshots (old_snapshot new_snapshot : Snapshot) : SnapshotDiff :=
  let old_keys := keysOf old_snapshot
  let new_keys := keysOf new_snapshot
  { added := (sortStrings (new_keys.filter (fun k => !(old_keys.contains k)))).map (getJ new_snapshot),
    removed := (sortStrings (old_keys.filter (fun k => !(new_keys.contains k)))).map (getJ old_snapshot),
    changed := changedEntries old_snapshot new_snapshot
      (sortStrings (old_keys.filter (fun k => new_keys.contains k))) }

/-- `fetch_shortage_records` after the network step: `response` is either a
transport failure (`HTTPError`/`URLError`, re-raised as `RuntimeError`) or
the JSON document the body parsed to.  `payload.get("results", [])` defaults
a missing field to the empty list; a non-list `results` raises; non-dict
items are silently dropped. -/
def fetch_shortage_records (response : Except String Json) : Except String (List RawRecord) :=
  match response with
  | .error e => .error e
  | .ok payload =>
    match payload with
    | .obj fields =>
        match (lookupJ fields "results").getD (Json.arr []) with
        | .arr items =>
            .ok (items.filterMap (fun item =>
              match item with
              | .obj f => some f
              | _ => none))
        | _ => .error "Unexpected API response: 'results' is not a list"
    | _ => .error "AttributeError: payload has no attribute get"

/-- `load_snapshot(path)`: the store location holds either nothing (path
does not exist: first run, empty snapshot) or a parsed JSON document; a
document that is not an object raises. -/
def load_snapshot (stored : Option Json) : Except String Snapshot :=
  match stored with
  | none => .ok []
  | some (Json.obj fields) => .ok fields
  | some _ => .error "Snapshot file is invalid JSON object"

mutual

/-- What a value written by `json.dumps(·, sort_keys=True)` parses back to
with `json.loads`: scalars and arrays round-trip exactly; an object's fields
come back key-sorted (the dump order), built into a dict by successive
assignment (so a duplicated key keeps the last value — dicts themselves
never carry duplicates). -/
def storeParse : Json → Json
  | .null => .null
  | .bool b => .bool b
  | .num n => .num n
  | .str s => .str s
  | .arr items => .arr (storeParseList items)
  | .obj fields =>
      .obj ((sortFields (storeParseFields fields)).foldl
              (fun acc kv => dictInsert acc kv.1 kv.2) [])

/-- Round trip of each array item. -/
def storeParseList : List Json → List Json
  | [] => []
  | x :: xs => storeParse x :: storeParseList xs

/-- Round trip of each field value. -/
def storeParseFields : List (String × Json) → List (String × Json)
  | [] => []
  | (k, v) :: rest => (k, storeParse v) :: storeParseFields rest

end

/-- `save_snapshot(path, snapshot)`: the store location afterwards holds the
document `json.dumps(snapshot, indent=2, sort_keys=True)` will parse back to
(indentation is whitespace only and does not affect the parsed value). -/
def save_snapshot (snapshot : Snapshot) : Option Json :=
  some (storeParse (Json.obj snapshot))

/-- `track_shortages`: fetch, build the new snapshot, load the old one,
diff, and only then — and only when `save` is set — overwrite the store.
The pair returned is (result, store content after the run). -/
def track_shortages (response : Except String Json) (stored : Option Json) (save : Bool) :
    Except String (Nat × SnapshotDiff) × Option Json :=
  match fetch_shortage_records response with
  | .error e => (.error e, stored)
  | .ok records =>
    let new_snapshot := build_snapshot records
    match load_snapshot stored with
    | .error e => (.error e, stored)
    | .ok old_snapshot =>
      let diff := diff_snapshots old_snapshot new_snapshot
      (.ok (records.length, diff), if save then save_snapshot new_snapshot else stored)

/-- No string occurs twice: the key-uniqueness invariant every Python dict
satisfies by construction. -/
def nodupKeys : List String → Bool
  | [] => true
  | k :: ks => !(ks.contains k) && nodupKeys ks

mutual

/-- A JSON value that a run of the Python program can actually hold: every
object's keys are distinct (Python dicts cannot carry duplicates). -/
def jwf : Json → Bool
  | .null => true
  | .bool _ => true
  | .num _ => true
  | .str _ => true
  | .arr items => jwfList items
  | .obj fields => nodupKeys (fields.map Prod.fst) && jwfFields fields

/-- Well-formedness of each array item. -/
def jwfList : List Json → Bool
  | [] => true
  | x :: xs => jwf x && jwfList xs

/-- Well-formedness of each field value. -/
def jwfFields : List (String × Json) → Bool
  | [] => true
  | (_, v) :: rest => jwf v && jwfFields rest

end

/-- `isinstance(content, dict)`. -/
def isObj : Json → Bool
  | .obj _ => true
  | _ => false

/-- The last record of the list whose derived identity key is `k` (the one
last-write-wins keeps). -/
def lastKeyed (records : List RawRecord) (k : String) : Option RawRecord :=
  match records with
  | [] => none
  | r :: rest =>
      match lastKeyed rest k with
      | some r' => some r'
      | none => if record_key r = k then some r else none

/-- `keys(new) − keys(old)` as a list (in `keysOf new` order). -/
def addedKeys (old_snapshot new_snapshot : Snapshot) : List String :=
  (keysOf new_snapshot).filter (fun k => !((keysOf old_snapshot).contains k))

/-- `keys(old) − keys(new)` as a list. -/
def removedKeys (old_snapshot new_snapshot : Snapshot) : List String :=
  (keysOf old_snapshot).filter (fun k => !((keysOf new_snapshot).contains k))

/-- `keys(old) ∩ keys(new)` as a list. -/
def commonKeys (old_snapshot new_snapshot : Snapshot) : List String :=
  (keysOf old_snapshot).filter (fun k => (keysOf new_snapshot).contains k)

/-- The common keys whose records differ under Python equality. -/
def changedKeys (old_snapshot new_snapshot : Snapshot) : List String :=
  (commonKeys old_snapshot new_snapshot).filter
    (fun k => !(pyEq (getJ old_snapshot k) (getJ new_snapshot k)))

/-- The common keys whose records are Python-equal. -/
def unchangedKeys (old_snapshot new_snapshot : Snapshot) : List String :=
  (commonKeys old_snapshot new_snapshot).filter
    (fun k => pyEq (getJ old_snapshot k) (getJ new_snapshot k))

/-- The Differ's contract as the spec words it, written independently of the
implementation: one classifying pass over the union of the two key sets in
ascending order, with record equality taken as Python value equality (the
comparison `!=` that the code performs on parsed JSON). -/
def diffSpec (old_snapshot new_snapshot : Snapshot) : SnapshotDiff :=
  let old_keys := keysOf old_snapshot
  let new_keys := keysOf new_snapshot
  let allKeys := sortStrings ((old_keys ++ new_keys).dedup)
  { added := (allKeys.filter
        (fun k => new_keys.contains k && !(old_keys.contains k))).map (getJ new_snapshot),
    removed := (allKeys.filter
        (fun k => old_keys.contains k && !(new_keys.contains k))).map (getJ old_snapshot),
    changed := (allKeys.filter
        (fun k => old_keys.contains k && new_keys.contains k
            && !(pyEq (getJ old_snapshot k) (getJ new_snapshot k)))).map
        (fun k => ⟨k, getJ old_snapshot k, getJ new_snapshot k⟩) }

/-- The spec's "first present-and-non-empty value among the candidate
fields", written as the spec says it: collect the candidates' present
values in priority order, then take the first that is neither `None` nor
the empty string. -/
def specFirstNonEmpty (record : RawRecord) (fields : List String) : Option Json :=
  (fields.filterMap (lookupJ record)).find? (fun v => !(isEmptyVal (some v)))

/-! ## Order lemmas for the code-point string order -/

theorem charListLe_head_le {x y : Char} {xs ys : List Char}
    (h : charListLe (x :: xs) (y :: ys) = true) : x.toNat ≤ y.toNat := by
  by_cases h1 : x.toNat < y.toNat
  · omega
  · by_cases h2 : y.toNat < x.toNat
    · simp [charListLe, h1, h2] at h
    · omega

theorem charListLe_cons_of_lt {x y : Char} {xs ys : List Char}
    (h : x.toNat < y.toNat) : charListLe (x :: xs) (y :: ys) = true := by
  simp [charListLe, h]

theorem charListLe_cons_of_eq {x y : Char} {xs ys : List Char}
    (h1 : ¬ x.toNat < y.toNat) (h2 : ¬ y.toNat < x.toNat) :
    charListLe (x :: xs) (y :: ys) = charListLe xs ys := by
  simp [charListLe, h1, h2]

theorem charListLe_total : ∀ a b : List Char, charListLe a b = true ∨ charListLe b a = true := by
  intro a
  induction a with
  | nil => intro b; left; rfl
  | cons x xs ih =>
    intro b
    cases b with
    | nil => right; rfl
    | cons y ys =>
      by_cases hxy : x.toNat < y.toNat
      · left; exact charListLe_cons_of_lt hxy
      · by_cases hyx : y.toNat < x.toNat
        · right; exact charListLe_cons_of_lt hyx
        · rcases ih ys with h | h
          · left; rw [charListLe_cons_of_eq hxy hyx]; exact h
          · right; rw [charListLe_cons_of_eq hyx hxy]; exact h

theorem charListLe_trans : ∀ a b c : List Char,
    charListLe a b = true → charListLe b c = true → charListLe a c = true := by
  intro a
  induction a with
  | nil => intro b c _ _; rfl
  | cons x xs ih =>
    intro b c hab hbc
    cases b with
    | nil => simp [charListLe] at hab
    | cons y ys =>
      cases c with
      | nil => simp [charListLe] at hbc
      | cons z zs =>
        have hxy := charListLe_head_le hab
        have hyz := charListLe_head_le hbc
        by_cases hxz : x.toNat < z.toNat
        · exact charListLe_cons_of_lt hxz
        · have hx : ¬ x.toNat < y.toNat := by omega
          have hy : ¬ y.toNat < x.toNat := by omega
          have hy2 : ¬ y.toNat < z.toNat := by omega
          have hz : ¬ z.toNat < y.toNat := by omega
          rw [charListLe_cons_of_eq hx hy] at hab
          rw [charListLe_cons_of_eq hy2 hz] at hbc
          rw [charListLe_cons_of_eq hxz (by omega)]
          exact ih ys zs hab hbc

theorem charListLe_antisymm : ∀ a b : List Char,
    charListLe a b = true → charListLe b a = true → a = b := by
  intro a
  induction a with
  | nil =>
    intro b _ hba
    cases b with
    | nil => rfl
    | cons y ys => simp [charListLe] at hba
  | cons x xs ih =>
    intro b hab hba
    cases b with
    | nil => simp [charListLe] at hab
    | cons y ys =>
      have hxy := charListLe_head_le hab
      have hyx := charListLe_head_le hba
      have h1 : ¬ x.toNat < y.toNat := by omega
      have h2 : ¬ y.toNat < x.toNat := by omega
      rw [charListLe_cons_of_eq h1 h2] at hab
      rw [charListLe_cons_of_eq h2 h1] at hba
      have hnat : x.toNat = y.toNat := by omega
      have hx : x = y := Char.ext (UInt32.ext hnat)
      rw [hx, ih ys hab hba]

theorem strLe_total (a b : String) : strLe a b = true ∨ strLe b a = true :=
  charListLe_total a.data b.data

theorem strLe_trans {a b c : String} (hab : strLe a b = true) (hbc : strLe b c = true) :
    strLe a c = true :=
  charListLe_trans a.data b.data c.data hab hbc

theorem strLe_antisymm {a b : String} (hab : strLe a b = true) (hba : strLe b a = true) :
    a = b := by
  cases a; cases b
  exact congrArg String.mk (charListLe_antisymm _ _ hab hba)

/-! ## Sorting lemmas -/

theorem perm_orderedInsert (le : α → α → Bool) (a : α) :
    ∀ l : List α, List.Perm (orderedInsert le a l) (a :: l) := by
  intro l
  induction l with
  | nil => exact List.Perm.refl _
  | cons b l ih =>
    by_cases h : le a b = true
    · simp [orderedInsert, h]
    · simp only [orderedInsert, h, if_false]
      exact (ih.cons b).trans (List.Perm.swap a b l)

theorem perm_insertionSort (le : α → α → Bool) :
    ∀ l : List α, List.Perm (insertionSort le l) l := by
  intro l
  induction l with
  | nil => exact List.Perm.refl _
  | cons a l ih =>
    exact (perm_orderedInsert le a (insertionSort le l)).trans (ih.cons a)

theorem mem_insertionSort (le : α → α → Bool) {a : α} {l : List α} :
    a ∈ insertionSort le l ↔ a ∈ l :=
  (perm_insertionSort le l).mem_iff

theorem nodup_insertionSort (le : α → α → Bool) {l : List α} (h : l.Nodup) :
    (insertionSort le l).Nodup :=
  (perm_insertionSort le l).nodup_iff.mpr h

theorem mem_orderedInsert (le : α → α → Bool) {a b : α} {l : List α} :
    b ∈ orderedInsert le a l ↔ b = a ∨ b ∈ l := by
  rw [(perm_orderedInsert le a l).mem_iff]; simp

theorem pairwise_orderedInsert (le : α → α → Bool)
    (htot : ∀ x y, le x y = true ∨ le y x = true)
    (htr : ∀ x y z, le x y = true → le y z = true → le x z = true) (a : α) :
    ∀ l : List α, l.Pairwise (fun x y => le x y = true) →
      (orderedInsert le a l).Pairwise (fun x y => le x y = true) := by
  intro l
  induction l with
  | nil => intro _; exact List.pairwise_singleton _ _
  | cons b l ih =>
    intro hp
    rcases List.pairwise_cons.mp hp with ⟨hb, hl⟩
    by_cases h : le a b = true
    · simp only [orderedInsert, h, if_true]
      refine List.pairwise_cons.mpr ⟨?_, hp⟩
      intro c hc
      rcases List.mem_cons.mp hc with rfl | hc
      · exact h
      · exact htr a b c h (hb c hc)
    · simp only [orderedInsert, h, if_false]
      refine List.pairwise_cons.mpr ⟨?_, ih hl⟩
      intro c hc
      rcases (mem_orderedInsert le).mp hc with hca | hc
      · rcases htot a b with hab | hba
        · exact absurd hab h
        · rw [hca]; exact hba
      · exact hb c hc

theorem sorted_insertionSort (le : α → α → Bool)
    (htot : ∀ x y, le x y = true ∨ le y x = true)
    (htr : ∀ x y z, le x y = true → le y z = true → le x z = true) :
    ∀ l : List α, (insertionSort le l).Pairwise (fun x y => le x y = true) := by
  intro l
  induction l with
  | nil => exact List.Pairwise.nil
  | cons a l ih => exact pairwise_orderedInsert le htot htr a _ ih

/-! ## Lookup and key-set lemmas -/

theorem contains_iff_mem {l : List String} {k : String} : l.contains k = true ↔ k ∈ l := by
  simp

theorem lookupJ_isSome_iff : ∀ {d : List (String × Json)} {k : String},
    (lookupJ d k).isSome = true ↔ k ∈ d.map Prod.fst := by
  intro d
  induction d with
  | nil => intro k; simp [lookupJ]
  | cons kv rest ih =>
    intro k
    obtain ⟨k0, v0⟩ := kv
    by_cases h : k0 = k
    · simp [lookupJ, h]
    · simp [lookupJ, h, ih, Ne.symm h]

theorem lookupJ_eq_none_iff {d : List (String × Json)} {k : String} :
    lookupJ d k = none ↔ k ∉ d.map Prod.fst := by
  rw [← lookupJ_isSome_iff, Option.isSome_iff_exists]
  cases lookupJ d k <;> simp

theorem lookupJ_mem : ∀ {d : List (String × Json)} {k : String} {v : Json},
    lookupJ d k = some v → (k, v) ∈ d := by
  intro d
  induction d with
  | nil => intro k v h; simp [lookupJ] at h
  | cons kv rest ih =>
    intro k v h
    obtain ⟨k0, v0⟩ := kv
    by_cases hk : k0 = k
    · subst hk
      simp [lookupJ] at h
      simp [h]
    · simp [lookupJ, hk] at h
      exact List.mem_cons_of_mem _ (ih h)

theorem lookupJ_of_mem_nodup : ∀ {d : List (String × Json)},
    (d.map Prod.fst).Nodup → ∀ {k : String} {v : Json}, (k, v) ∈ d → lookupJ d k = some v := by
  intro d
  induction d with
  | nil => intro _ k v h; simp at h
  | cons kv rest ih =>
    intro hn k v h
    obtain ⟨k0, v0⟩ := kv
    simp only [List.map_cons, List.nodup_cons] at hn
    rcases List.mem_cons.mp h with heq | hmem
    · obtain ⟨h1, h2⟩ := Prod.mk.injEq .. ▸ heq
      · simp_all [lookupJ]
    · have hk : k0 ≠ k := by
        intro hk
        subst hk
        exact hn.1 (List.mem_map.mpr ⟨(k0, v), hmem, rfl⟩)
      simp [lookupJ, hk]
      exact ih hn.2 hmem

theorem mem_keysOf {d : List (String × Json)} {k : String} :
    k ∈ keysOf d ↔ k ∈ d.map Prod.fst :=
  List.mem_dedup

theorem keysOf_nodup (d : List (String × Json)) : (keysOf d).Nodup :=
  List.nodup_dedup _

theorem mem_keysOf_iff_isSome {d : List (String × Json)} {k : String} :
    k ∈ keysOf d ↔ (lookupJ d k).isSome = true := by
  rw [mem_keysOf, lookupJ_isSome_iff]

/-! ## `sortStrings` specialisations -/

theorem strLe_trans3 : ∀ x y z : String,
    strLe x y = true → strLe y z = true → strLe x z = true :=
  fun _ _ _ h1 h2 => strLe_trans h1 h2

theorem sortStrings_sorted (l : List String) :
    (sortStrings l).Pairwise (fun x y => strLe x y = true) :=
  sorted_insertionSort strLe strLe_total strLe_trans3 l

theorem mem_sortStrings {l : List String} {k : String} : k ∈ sortStrings l ↔ k ∈ l :=
  mem_insertionSort strLe

theorem sortStrings_nodup {l : List String} (h : l.Nodup) : (sortStrings l).Nodup :=
  nodup_insertionSort strLe h

theorem sorted_nodup_eq_of_mem_iff :
    ∀ (l₁ l₂ : List String), l₁.Pairwise (fun x y => strLe x y = true) →
      l₂.Pairwise (fun x y => strLe x y = true) → l₁.Nodup → l₂.Nodup →
      (∀ k, k ∈ l₁ ↔ k ∈ l₂) → l₁ = l₂ := by
  intro l₁
  induction l₁ with
  | nil =>
    intro l₂ _ _ _ _ h
    cases l₂ with
    | nil => rfl
    | cons y ys => exact absurd ((h y).mpr (by simp)) (by simp)
  | cons x xs ih =>
    intro l₂ s₁ s₂ n₁ n₂ h
    cases l₂ with
    | nil => exact absurd ((h x).mp (by simp)) (by simp)
    | cons y ys =>
      have hx2 : x ∈ y :: ys := (h x).mp (by simp)
      have hy1 : y ∈ x :: xs := (h y).mpr (by simp)
      have hxy : x = y := by
        rcases List.mem_cons.mp hx2 with h1 | h1
        · exact h1
        · rcases List.mem_cons.mp hy1 with h2 | h2
          · exact h2.symm
          · exact strLe_antisymm ((List.pairwise_cons.mp s₁).1 y h2)
              ((List.pairwise_cons.mp s₂).1 x h1)
      obtain rfl := hxy
      have htails : ∀ k, k ∈ xs ↔ k ∈ ys := by
        intro k
        constructor
        · intro hk
          rcases List.mem_cons.mp ((h k).mp (List.mem_cons_of_mem _ hk)) with heq | h2
          · exact absurd (heq ▸ hk) (List.nodup_cons.mp n₁).1
          · exact h2
        · intro hk
          rcases List.mem_cons.mp ((h k).mpr (List.mem_cons_of_mem _ hk)) with heq | h2
          · exact absurd (heq ▸ hk) (List.nodup_cons.mp n₂).1
          · exact h2
      rw [ih ys (List.pairwise_cons.mp s₁).2 (List.pairwise_cons.mp s₂).2
        (List.nodup_cons.mp n₁).2 (List.nodup_cons.mp n₂).2 htails]

theorem sortStrings_eq_of_mem_iff {l₁ l₂ : List String} (n₁ : l₁.Nodup) (n₂ : l₂.Nodup)
    (h : ∀ k, k ∈ l₁ ↔ k ∈ l₂) : sortStrings l₁ = sortStrings l₂ :=
  sorted_nodup_eq_of_mem_iff _ _ (sortStrings_sorted l₁) (sortStrings_sorted l₂)
    (sortStrings_nodup n₁) (sortStrings_nodup n₂)
    (fun k => by rw [mem_sortStrings, mem_sortStrings]; exact h k)

theorem filter_sortStrings (p : String → Bool) {l : List String} (hn : l.Nodup) :
    (sortStrings l).filter p = sortStrings (l.filter p) := by
  apply sorted_nodup_eq_of_mem_iff
  · exact (sortStrings_sorted l).sublist (List.filter_sublist _)
  · exact sortStrings_sorted _
  · exact (sortStrings_nodup hn).filter p
  · exact sortStrings_nodup (hn.filter p)
  · intro k
    rw [List.mem_filter, mem_sortStrings, mem_sortStrings, List.mem_filter]

/-! ## Dict-assignment and snapshot-build lemmas -/

theorem lookupJ_replaceVal (k : String) (v : Json) :
    ∀ (d : List (String × Json)) (k' : String),
    lookupJ (replaceVal k v d) k'
      = if k' = k then (lookupJ d k).map (fun _ => v) else lookupJ d k' := by
  intro d
  induction d with
  | nil => intro k'; by_cases h : k' = k <;> simp [replaceVal, lookupJ, h]
  | cons kv rest ih =>
    intro k'
    obtain ⟨k0, v0⟩ := kv
    by_cases h0 : k0 = k
    · subst h0
      by_cases h' : k0 = k'
      · subst h'
        simp [replaceVal, lookupJ]
      · have h'' : ¬ k' = k0 := fun hh => h' hh.symm
        simp [replaceVal, lookupJ, h', h'', ih]
    · by_cases h' : k0 = k'
      · subst h'
        have h'' : ¬ k0 = k := h0
        simp [replaceVal, lookupJ, h0, h'', Ne.symm h0]
      · have h'' : ¬ k' = k0 := fun hh => h' hh.symm
        simp [replaceVal, lookupJ, h0, h', ih]

theorem lookupJ_append_single (k : String) (v : Json) :
    ∀ (d : List (String × Json)) (k' : String),
    lookupJ (d ++ [(k, v)]) k' =
      match lookupJ d k' with
      | some w => some w
      | none => if k = k' then some v else none := by
  intro d
  induction d with
  | nil => intro k'; simp [lookupJ]
  | cons kv rest ih =>
    intro k'
    obtain ⟨k0, v0⟩ := kv
    by_cases h : k0 = k' <;> simp [lookupJ, h, ih]

theorem lookupJ_dictInsert (d : List (String × Json)) (k : String) (v : Json) (k' : String) :
    lookupJ (dictInsert d k v) k' = if k' = k then some v else lookupJ d k' := by
  unfold dictInsert
  split
  · rename_i hcon
    rw [lookupJ_replaceVal]
    by_cases h : k' = k
    · subst h
      have hs : (lookupJ d k').isSome = true :=
        lookupJ_isSome_iff.mpr (contains_iff_mem.mp hcon)
      cases hl : lookupJ d k' with
      | none => rw [hl] at hs; simp at hs
      | some w => simp
    · simp [h]
  · rename_i hcon
    rw [lookupJ_append_single]
    by_cases h : k' = k
    · subst h
      have hnone : lookupJ d k' = none :=
        lookupJ_eq_none_iff.mpr (fun hm => hcon (contains_iff_mem.mpr hm))
      simp [hnone]
    · have h2 : ¬ k = k' := fun hh => h hh.symm
      cases hl : lookupJ d k' with
      | none => simp [h, h2]
      | some w => simp [h]

theorem map_fst_replaceVal (k : String) (v : Json) :
    ∀ d : List (String × Json),
    (replaceVal k v d).map Prod.fst = d.map Prod.fst := by
  intro d
  induction d with
  | nil => rfl
  | cons kv rest ih =>
    obtain ⟨k0, v0⟩ := kv
    by_cases h : k0 = k <;> simp [replaceVal, h, ih]

theorem mem_keysOf_dictInsert {d : List (String × Json)} {k : String} {v : Json} {k' : String} :
    k' ∈ keysOf (dictInsert d k v) ↔ k' ∈ keysOf d ∨ k' = k := by
  rw [mem_keysOf_iff_isSome, lookupJ_dictInsert, mem_keysOf_iff_isSome]
  by_cases h : k' = k <;> simp [h]

theorem lookupJ_build_loop : ∀ (records : List RawRecord) (acc : Snapshot) (k : String),
    lookupJ (records.foldl (fun snapshot record =>
        dictInsert snapshot (record_key record) (normalize_record record)) acc) k
      = match lastKeyed records k with
        | some r => some (normalize_record r)
        | none => lookupJ acc k := by
  intro records
  induction records with
  | nil => intro acc k; simp [lastKeyed]
  | cons r rest ih =>
    intro acc k
    simp only [List.foldl_cons, lastKeyed]
    rw [ih]
    cases h : lastKeyed rest k with
    | some r' => simp
    | none =>
      simp only []
      rw [lookupJ_dictInsert]
      by_cases hk : record_key r = k
      · subst hk
        simp
      · have hk2 : ¬ k = record_key r := fun hh => hk hh.symm
        simp [hk, hk2]

theorem lookupJ_build_snapshot (records : List RawRecord) (k : String) :
    lookupJ (build_snapshot records) k = (lastKeyed records k).map normalize_record := by
  unfold build_snapshot
  rw [lookupJ_build_loop]
  cases lastKeyed records k <;> simp [lookupJ]

theorem lastKeyed_isSome_iff : ∀ (records : List RawRecord) (k : String),
    (lastKeyed records k).isSome = true ↔ ∃ r ∈ records, record_key r = k := by
  intro records
  induction records with
  | nil => intro k; simp [lastKeyed]
  | cons r rest ih =>
    intro k
    cases h : lastKeyed rest k with
    | some r' =>
      have hex : ∃ x ∈ rest, record_key x = k := (ih k).mp (by simp [h])
      obtain ⟨x, hx, hxk⟩ := hex
      simp only [lastKeyed, h]
      constructor
      · intro _; exact ⟨x, List.mem_cons_of_mem _ hx, hxk⟩
      · intro _; rfl
    | none =>
      have hno : ¬ ∃ x ∈ rest, record_key x = k := by
        intro hex
        have := (ih k).mpr hex
        rw [h] at this
        simp at this
      by_cases hk : record_key r = k
      · simp only [lastKeyed, h, hk]
        constructor
        · intro _; exact ⟨r, by simp, hk⟩
        · intro _; simp
      · simp only [lastKeyed, h, hk]
        constructor
        · intro hfalse; simp at hfalse
        · intro hex
          rcases hex with ⟨x, hx, hxk⟩
          rcases List.mem_cons.mp hx with rfl | hx
          · exact absurd hxk hk
          · exact absurd ⟨x, hx, hxk⟩ hno

/-! ## Well-formedness and Python-equality lemmas -/

theorem nodupKeys_iff : ∀ l : List String, nodupKeys l = true ↔ l.Nodup := by
  intro l
  induction l with
  | nil => simp [nodupKeys]
  | cons k ks ih => simp [nodupKeys, ih]

theorem jwfFields_mem : ∀ {f : List (String × Json)}, jwfFields f = true →
    ∀ {k : String} {v : Json}, (k, v) ∈ f → jwf v = true := by
  intro f
  induction f with
  | nil => intro _ k v h; simp at h
  | cons kv rest ih =>
    intro hf k v h
    obtain ⟨k0, v0⟩ := kv
    rw [jwfFields, Bool.and_eq_true] at hf
    rcases List.mem_cons.mp h with heq | hmem
    · obtain ⟨-, h2⟩ := Prod.mk.injEq .. ▸ heq
      · exact h2 ▸ hf.1
    · exact ih hf.2 hmem

theorem jwfList_mem : ∀ {l : List Json}, jwfList l = true →
    ∀ {x : Json}, x ∈ l → jwf x = true := by
  intro l
  induction l with
  | nil => intro _ x h; simp at h
  | cons y rest ih =>
    intro hl x h
    rw [jwfList, Bool.and_eq_true] at hl
    rcases List.mem_cons.mp h with rfl | hmem
    · exact hl.1
    · exact ih hl.2 hmem

theorem pyEqFields_of_forall : ∀ (f₁ f₂ : List (String × Json)),
    (∀ kv, kv ∈ f₁ → ∃ w, lookupJ f₂ kv.1 = some w ∧ pyEq kv.2 w = true) →
    pyEqFields f₁ f₂ = true := by
  intro f₁
  induction f₁ with
  | nil => intro f₂ _; rfl
  | cons kv rest ih =>
    intro f₂ h
    obtain ⟨k, v⟩ := kv
    obtain ⟨w, hw, hpy⟩ := h (k, v) (by simp)
    rw [pyEqFields, Bool.and_eq_true]
    exact ⟨by rw [hw]; exact hpy, ih f₂ (fun kv hkv => h kv (List.mem_cons_of_mem _ hkv))⟩

theorem pyEqList_of_forall : ∀ l : List Json,
    (∀ x ∈ l, pyEq x x = true) → pyEqList l l = true := by
  intro l
  induction l with
  | nil => intro _; rfl
  | cons x rest ih =>
    intro h
    rw [pyEqList, Bool.and_eq_true]
    exact ⟨h x (by simp), ih (fun y hy => h y (List.mem_cons_of_mem _ hy))⟩

theorem pyEqList_map_of (g : Json → Json) : ∀ l : List Json,
    (∀ x ∈ l, pyEq (g x) x = true) → pyEqList (l.map g) l = true := by
  intro l
  induction l with
  | nil => intro _; rfl
  | cons x rest ih =>
    intro h
    rw [List.map_cons, pyEqList, Bool.and_eq_true]
    exact ⟨h x (by simp), ih (fun y hy => h y (List.mem_cons_of_mem _ hy))⟩

theorem pyEq_refl_size : ∀ n : Nat, ∀ j : Json, sizeOf j ≤ n → jwf j = true → pyEq j j = true := by
  intro n
  induction n with
  | zero =>
    intro j hs
    cases j <;> simp at hs
  | succ n ih =>
    intro j hs hwf
    cases j with
    | null => rfl
    | bool b => simp [pyEq]
    | num m => simp [pyEq]
    | str s => simp [pyEq]
    | arr items =>
      rw [pyEq]
      apply pyEqList_of_forall
      intro x hx
      have hlt : sizeOf x < sizeOf items := List.sizeOf_lt_of_mem hx
      have hsz : sizeOf (Json.arr items) = 1 + sizeOf items := by simp
      exact ih x (by omega) (jwfList_mem (by rw [jwf] at hwf; exact hwf) hx)
    | obj fields =>
      rw [jwf, Bool.and_eq_true] at hwf
      rw [pyEq, Bool.and_eq_true]
      refine ⟨by simp, ?_⟩
      apply pyEqFields_of_forall
      intro kv hmem
      obtain ⟨k, v⟩ := kv
      refine ⟨v, lookupJ_of_mem_nodup ((nodupKeys_iff _).mp hwf.1) hmem, ?_⟩
      have h1 : sizeOf (k, v) < sizeOf fields := List.sizeOf_lt_of_mem hmem
      have h2 : sizeOf (k, v) = 1 + sizeOf k + sizeOf v := by simp
      have h3 : sizeOf (Json.obj fields) = 1 + sizeOf fields := by simp
      exact ih v (by omega) (jwfFields_mem hwf.2 hmem)

theorem pyEq_refl {j : Json} (h : jwf j = true) : pyEq j j = true :=
  pyEq_refl_size (sizeOf j) j (Nat.le_refl _) h

/-! ## Store round-trip lemmas -/

theorem storeParseFields_eq_map : ∀ f : List (String × Json),
    storeParseFields f = f.map (fun kv => (kv.1, storeParse kv.2)) := by
  intro f
  induction f with
  | nil => rfl
  | cons kv rest ih =>
    obtain ⟨k, v⟩ := kv
    rw [storeParseFields, ih]
    rfl

theorem storeParseList_eq_map : ∀ l : List Json, storeParseList l = l.map storeParse := by
  intro l
  induction l with
  | nil => rfl
  | cons x rest ih => rw [storeParseList, ih]; rfl

theorem map_fst_storeParseFields (f : List (String × Json)) :
    (storeParseFields f).map Prod.fst = f.map Prod.fst := by
  rw [storeParseFields_eq_map, List.map_map]
  rfl

theorem dictInsert_of_not_mem {acc : List (String × Json)} {k : String} (v : Json)
    (h : k ∉ acc.map Prod.fst) : dictInsert acc k v = acc ++ [(k, v)] := by
  unfold dictInsert
  rw [if_neg]
  intro hcon
  exact h (contains_iff_mem.mp hcon)

theorem foldl_dictInsert_append : ∀ (l acc : List (String × Json)),
    (l.map Prod.fst).Nodup → (∀ k, k ∈ l.map Prod.fst → k ∉ acc.map Prod.fst) →
    l.foldl (fun a kv => dictInsert a kv.1 kv.2) acc = acc ++ l := by
  intro l
  induction l with
  | nil => intro acc _ _; simp
  | cons kv rest ih =>
    intro acc hn hdisj
    obtain ⟨k, v⟩ := kv
    simp only [List.map_cons, List.nodup_cons] at hn
    rw [List.foldl_cons]
    rw [dictInsert_of_not_mem v (hdisj k (by simp))]
    rw [ih (acc ++ [(k, v)]) hn.2]
    · simp
    · intro k' hk'
      rw [List.map_append]
      intro hmem
      rcases List.mem_append.mp hmem with hacc | hsingle
      · exact hdisj k' (List.mem_cons_of_mem _ hk') hacc
      · simp at hsingle
        exact hn.1 (hsingle ▸ hk')

theorem pyEq_storeParse_size : ∀ n : Nat, ∀ j : Json,
    sizeOf j ≤ n → jwf j = true → pyEq (storeParse j) j = true := by
  intro n
  induction n with
  | zero =>
    intro j hs
    cases j <;> simp at hs
  | succ n ih =>
    intro j hs hwf
    cases j with
    | null => rfl
    | bool b => simp [storeParse, pyEq]
    | num m => simp [storeParse, pyEq]
    | str s => simp [storeParse, pyEq]
    | arr items =>
      rw [storeParse, pyEq, storeParseList_eq_map]
      apply pyEqList_map_of
      intro x hx
      have hlt : sizeOf x < sizeOf items := List.sizeOf_lt_of_mem hx
      have hsz : sizeOf (Json.arr items) = 1 + sizeOf items := by simp
      exact ih x (by omega) (jwfList_mem (by rw [jwf] at hwf; exact hwf) hx)
    | obj fields =>
      rw [jwf, Bool.and_eq_true] at hwf
      have hnodup : (fields.map Prod.fst).Nodup := (nodupKeys_iff _).mp hwf.1
      have hkeys : List.Perm ((sortFields (storeParseFields fields)).map Prod.fst)
          (fields.map Prod.fst) := by
        have h2 := (perm_insertionSort (fun a b => strLe a.1 b.1)
          (storeParseFields fields)).map Prod.fst
        rw [map_fst_storeParseFields] at h2
        exact h2
      have hnodup2 : ((sortFields (storeParseFields fields)).map Prod.fst).Nodup :=
        hkeys.nodup_iff.mpr hnodup
      rw [storeParse]
      have hfold : (sortFields (storeParseFields fields)).foldl
          (fun acc kv => dictInsert acc kv.1 kv.2) []
          = sortFields (storeParseFields fields) := by
        rw [foldl_dictInsert_append _ [] hnodup2 (by simp)]
        simp
      rw [hfold, pyEq, Bool.and_eq_true]
      constructor
      · have hlen : (sortFields (storeParseFields fields)).length = fields.length := by
          unfold sortFields
          rw [(perm_insertionSort (fun a b => strLe a.1 b.1)
            (storeParseFields fields)).length_eq, storeParseFields_eq_map, List.length_map]
        simp [hlen]
      · apply pyEqFields_of_forall
        intro kv hmem
        have hmem2 : kv ∈ storeParseFields fields :=
          (perm_insertionSort _ (storeParseFields fields)).mem_iff.mp hmem
        rw [storeParseFields_eq_map] at hmem2
        obtain ⟨⟨k, v⟩, hkv, heq⟩ := List.mem_map.mp hmem2
        obtain rfl := heq.symm
        refine ⟨v, lookupJ_of_mem_nodup hnodup hkv, ?_⟩
        have h1 : sizeOf (k, v) < sizeOf fields := List.sizeOf_lt_of_mem hkv
        have h2 : sizeOf (k, v) = 1 + sizeOf k + sizeOf v := by simp
        have h3 : sizeOf (Json.obj fields) = 1 + sizeOf fields := by simp
        exact ih v (by omega) (jwfFields_mem hwf.2 hkv)

theorem pyEq_storeParse {j : Json} (h : jwf j = true) : pyEq (storeParse j) j = true :=
  pyEq_storeParse_size (sizeOf j) j (Nat.le_refl _) h

/-! ## Differ lemmas -/

theorem contains_eq_false_iff {l : List String} {k : String} :
    l.contains k = false ↔ k ∉ l := by
  simp

theorem changedEntries_eq (old_snapshot new_snapshot : Snapshot) :
    ∀ ks : List String,
    changedEntries old_snapshot new_snapshot ks
      = (ks.filter (fun k => !(pyEq (getJ old_snapshot k) (getJ new_snapshot k)))).map
          (fun k => ⟨k, getJ old_snapshot k, getJ new_snapshot k⟩) := by
  intro ks
  induction ks with
  | nil => rfl
  | cons k rest ih =>
    by_cases h : pyEq (getJ old_snapshot k) (getJ new_snapshot k) = true
    · simp [changedEntries, h, ih]
    · rw [Bool.not_eq_true] at h
      simp [changedEntries, h, ih]

theorem mem_addedKeys {old_snapshot new_snapshot : Snapshot} {k : String} :
    k ∈ addedKeys old_snapshot new_snapshot
      ↔ k ∈ keysOf new_snapshot ∧ k ∉ keysOf old_snapshot := by
  simp [addedKeys, List.mem_filter]

theorem mem_removedKeys {old_snapshot new_snapshot : Snapshot} {k : String} :
    k ∈ removedKeys old_snapshot new_snapshot
      ↔ k ∈ keysOf old_snapshot ∧ k ∉ keysOf new_snapshot := by
  simp [removedKeys, List.mem_filter]

theorem mem_commonKeys {old_snapshot new_snapshot : Snapshot} {k : String} :
    k ∈ commonKeys old_snapshot new_snapshot
      ↔ k ∈ keysOf old_snapshot ∧ k ∈ keysOf new_snapshot := by
  simp [commonKeys, List.mem_filter]

theorem mem_changedKeys {old_snapshot new_snapshot : Snapshot} {k : String} :
    k ∈ changedKeys old_snapshot new_snapshot
      ↔ (k ∈ keysOf old_snapshot ∧ k ∈ keysOf new_snapshot)
        ∧ pyEq (getJ old_snapshot k) (getJ new_snapshot k) = false := by
  simp [changedKeys, List.mem_filter, mem_commonKeys]

theorem mem_unchangedKeys {old_snapshot new_snapshot : Snapshot} {k : String} :
    k ∈ unchangedKeys old_snapshot new_snapshot
      ↔ (k ∈ keysOf old_snapshot ∧ k ∈ keysOf new_snapshot)
        ∧ pyEq (getJ old_snapshot k) (getJ new_snapshot k) = true := by
  simp [unchangedKeys, List.mem_filter, mem_commonKeys]

theorem addedKeys_nodup (old_snapshot new_snapshot : Snapshot) :
    (addedKeys old_snapshot new_snapshot).Nodup :=
  (keysOf_nodup new_snapshot).filter _

theorem removedKeys_nodup (old_snapshot new_snapshot : Snapshot) :
    (removedKeys old_snapshot new_snapshot).Nodup :=
  (keysOf_nodup old_snapshot).filter _

theorem commonKeys_nodup (old_snapshot new_snapshot : Snapshot) :
    (commonKeys old_snapshot new_snapshot).Nodup :=
  (keysOf_nodup old_snapshot).filter _

theorem sorted_addedKeys_eq (old_snapshot new_snapshot : Snapshot) :
    sortStrings (addedKeys old_snapshot new_snapshot)
      = (sortStrings ((keysOf old_snapshot ++ keysOf new_snapshot).dedup)).filter
          (fun k => (keysOf new_snapshot).contains k
            && !((keysOf old_snapshot).contains k)) := by
  rw [filter_sortStrings _ (List.nodup_dedup _)]
  apply sortStrings_eq_of_mem_iff (addedKeys_nodup ..) ((List.nodup_dedup _).filter _)
  intro k
  rw [mem_addedKeys, List.mem_filter, List.mem_dedup, List.mem_append]
  simp only [Bool.and_eq_true, Bool.not_eq_true']
  rw [contains_iff_mem, contains_eq_false_iff]
  tauto

theorem sorted_removedKeys_eq (old_snapshot new_snapshot : Snapshot) :
    sortStrings (removedKeys old_snapshot new_snapshot)
      = (sortStrings ((keysOf old_snapshot ++ keysOf new_snapshot).dedup)).filter
          (fun k => (keysOf old_snapshot).contains k
            && !((keysOf new_snapshot).contains k)) := by
  rw [filter_sortStrings _ (List.nodup_dedup _)]
  apply sortStrings_eq_of_mem_iff (removedKeys_nodup ..) ((List.nodup_dedup _).filter _)
  intro k
  rw [mem_removedKeys, List.mem_filter, List.mem_dedup, List.mem_append]
  simp only [Bool.and_eq_true, Bool.not_eq_true']
  rw [contains_iff_mem, contains_eq_false_iff]
  tauto

theorem sorted_commonKeys_eq (old_snapshot new_snapshot : Snapshot) :
    sortStrings (commonKeys old_snapshot new_snapshot)
      = (sortStrings ((keysOf old_snapshot ++ keysOf new_snapshot).dedup)).filter
          (fun k => (keysOf old_snapshot).contains k
            && (keysOf new_snapshot).contains k) := by
  rw [filter_sortStrings _ (List.nodup_dedup _)]
  apply sortStrings_eq_of_mem_iff (commonKeys_nodup ..) ((List.nodup_dedup _).filter _)
  intro k
  rw [mem_commonKeys, List.mem_filter, List.mem_dedup, List.mem_append]
  simp only [Bool.and_eq_true]
  rw [contains_iff_mem, contains_iff_mem]
  tauto

theorem diff_added_def (old_snapshot new_snapshot : Snapshot) :
    (diff_snapshots old_snapshot new_snapshot).added
      = (sortStrings (addedKeys old_snapshot new_snapshot)).map (getJ new_snapshot) := rfl

theorem diff_removed_def (old_snapshot new_snapshot : Snapshot) :
    (diff_snapshots old_snapshot new_snapshot).removed
      = (sortStrings (removedKeys old_snapshot new_snapshot)).map (getJ old_snapshot) := rfl

theorem diff_changed_def (old_snapshot new_snapshot : Snapshot) :
    (diff_snapshots old_snapshot new_snapshot).changed
      = changedEntries old_snapshot new_snapshot
          (sortStrings (commonKeys old_snapshot new_snapshot)) := rfl

/-! ## Non-emptiness of the identity key -/

theorem toDigitsCore_length_gt : ∀ (b fuel n : Nat) (ds : List Char), 0 < fuel →
    ds.length < (Nat.toDigitsCore b fuel n ds).length := by
  intro b fuel
  induction fuel with
  | zero => intro n ds h; omega
  | succ f ih =>
    intro n ds _
    rw [Nat.toDigitsCore]
    split
    · simp
    · have h2 := fun (h : 0 < f) => ih (n / b) (Nat.digitChar (n % b) :: ds) h
      by_cases hf : 0 < f
      · have := h2 hf
        simp at this ⊢
        omega
      · have hf0 : f = 0 := by omega
        subst hf0
        rw [Nat.toDigitsCore]
        simp

theorem nat_repr_ne_empty (n : Nat) : Nat.repr n ≠ "" := by
  have h := toDigitsCore_length_gt 10 (n + 1) n [] (by omega)
  intro hcon
  rw [Nat.repr, Nat.toDigits] at hcon
  have hdata := congrArg String.data hcon
  simp [List.asString] at hdata
  rw [hdata] at h
  simp at h

theorem int_toString_ne_empty (n : Int) : toString n ≠ "" := by
  show Int.repr n ≠ ""
  cases n with
  | ofNat m => rw [Int.repr]; exact nat_repr_ne_empty m
  | negSucc m =>
    rw [Int.repr]
    intro h
    have hdata := congrArg String.data h
    rw [String.data_append] at hdata
    simp at hdata

theorem wrap_ne_empty {a : String} (mid c : String) (ha : a.data ≠ []) :
    a ++ mid ++ c ≠ "" := by
  intro h
  have hd := congrArg String.data h
  rw [String.data_append, String.data_append] at hd
  simp at hd
  exact ha hd.1

theorem pyReprStr_ne_empty (s : String) : pyReprStr s ≠ "" := by
  rw [pyReprStr]
  intro h
  have hd := congrArg String.data h
  rw [String.data_append, String.data_append] at hd
  simp [String.singleton] at hd

theorem pyStr_ne_empty {c : Json} (h : isEmptyVal (some c) = false) : pyStr c ≠ "" := by
  cases c with
  | null => simp [isEmptyVal] at h
  | bool b => cases b <;> simp [pyStr]
  | num n => exact int_toString_ne_empty n
  | str s =>
    intro hcon
    rw [pyStr] at hcon
    subst hcon
    simp [isEmptyVal] at h
  | arr items =>
    rw [pyStr, pyRepr]
    exact wrap_ne_empty _ _ (by simp)
  | obj fields =>
    rw [pyStr, pyRepr]
    exact wrap_ne_empty _ _ (by simp)

theorem dumps_obj_ne_empty (fields : List (String × Json)) : dumps (Json.obj fields) ≠ "" := by
  rw [dumps]
  exact wrap_ne_empty _ _ (by simp)

theorem pick_first_not_empty : ∀ (keys : List String) (record : RawRecord) (c : Json),
    pick_first record keys = some c → isEmptyVal (some c) = false := by
  intro keys
  induction keys with
  | nil => intro record c h; simp [pick_first] at h
  | cons k rest ih =>
    intro record c h
    rw [pick_first] at h
    split at h
    · exact ih record c h
    · rename_i hne
      rw [Bool.not_eq_true] at hne
      rw [← h]
      exact hne

theorem record_key_ne_empty (record : RawRecord) : record_key record ≠ "" := by
  rw [record_key]
  cases hp : pick_first record idCandidateFields with
  | none => exact dumps_obj_ne_empty record
  | some c => exact pyStr_ne_empty (pick_first_not_empty idCandidateFields record c hp)

/-! ## `_pick_first` against the spec's description -/

theorem pick_first_eq_spec : ∀ (keys : List String) (record : RawRecord),
    pick_first record keys = specFirstNonEmpty record keys := by
  intro keys
  induction keys with
  | nil => intro record; rfl
  | cons k rest ih =>
    intro record
    rw [pick_first, specFirstNonEmpty]
    cases hl : lookupJ record k with
    | none =>
      rw [if_pos (by rfl), List.filterMap_cons_none hl]
      exact ih record
    | some v =>
      rw [List.filterMap_cons_some hl]
      by_cases he : isEmptyVal (some v) = true
      · rw [if_pos he, List.find?_cons_of_neg _ (by simp [he])]
        exact ih record
      · rw [Bool.not_eq_true] at he
        rw [if_neg (by simp [he]), List.find?_cons_of_pos _ (by simp [he])]

/-! ## The changed component against the spec pass -/

theorem diffSpec_changed_eq_impl (old_snapshot new_snapshot : Snapshot) :
    changedEntries old_snapshot new_snapshot (sortStrings (commonKeys old_snapshot new_snapshot))
      = ((sortStrings ((keysOf old_snapshot ++ keysOf new_snapshot).dedup)).filter
          (fun k => (keysOf old_snapshot).contains k && (keysOf new_snapshot).contains k
              && !(pyEq (getJ old_snapshot k) (getJ new_snapshot k)))).map
          (fun k => ⟨k, getJ old_snapshot k, getJ new_snapshot k⟩) := by
  rw [changedEntries_eq, sorted_commonKeys_eq, List.filter_filter]
  have harg : (fun k => (!(pyEq (getJ old_snapshot k) (getJ new_snapshot k)))
        && ((keysOf old_snapshot).contains k && (keysOf new_snapshot).contains k))
      = (fun k => (keysOf old_snapshot).contains k && (keysOf new_snapshot).contains k
        && !(pyEq (getJ old_snapshot k) (getJ new_snapshot k))) :=
    funext fun k => Bool.and_comm ..
  rw [harg]

/-! ## Claim theorems -/

/-- C1 (counterexample): the claim says a changed-entry is emitted exactly
when the two normalized records differ under deep structural equality
including the raw payload.  The records with status `1` and status `true`
normalize to structurally different records (different `status` and `raw`),
yet `diff_snapshots` emits no changed entry at their common key, because
the code compares with Python `==`, under which `1 == True`. -/
theorem raw_structural_change_not_flagged :
    normalize_record [("id", Json.str "k"), ("status", Json.num 1)]
      ≠ normalize_record [("id", Json.str "k"), ("status", Json.bool true)] ∧
    (diff_snapshots (build_snapshot [[("id", Json.str "k"), ("status", Json.num 1)]])
        (build_snapshot [[("id", Json.str "k"), ("status", Json.bool true)]])).changed
      = [] := by
  constructor
  · intro h
    have h2 : (some (Json.num 1) : Option Json) = some (Json.bool true) :=
      congrArg (fun j => match j with | Json.obj f => lookupJ f "status" | _ => none) h
    injection h2 with h3
    exact Json.noConfusion h3
  · rfl

/-- C1 (amended): `diff_snapshots` computes exactly the spec's classifying
pass over `keys(old) ∪ keys(new)` in ascending key order — added = the new
records at the new-only keys, removed = the old records at the old-only
keys, one `{key, before, after}` entry per common key — with record
equality being Python value equality (order-insensitive on dicts, with
`1 == True`), not byte-level structural equality. -/
theorem diff_snapshots_eq_diffSpec (old_snapshot new_snapshot : Snapshot) :
    diff_snapshots old_snapshot new_snapshot = diffSpec old_snapshot new_snapshot := by
  have ha : (diff_snapshots old_snapshot new_snapshot).added
      = (diffSpec old_snapshot new_snapshot).added := by
    rw [diff_added_def, sorted_addedKeys_eq]
    rfl
  have hr : (diff_snapshots old_snapshot new_snapshot).removed
      = (diffSpec old_snapshot new_snapshot).removed := by
    rw [diff_removed_def, sorted_removedKeys_eq]
    rfl
  have hc : (diff_snapshots old_snapshot new_snapshot).changed
      = (diffSpec old_snapshot new_snapshot).changed := by
    rw [diff_changed_def, diffSpec_changed_eq_impl]
    rfl
  cases hD : diff_snapshots old_snapshot new_snapshot with
  | mk a r c =>
    cases hS : diffSpec old_snapshot new_snapshot with
    | mk a2 r2 c2 =>
      rw [hD, hS] at ha hr hc
      rw [SnapshotDiff.mk.injEq]
      exact ⟨ha, hr, hc⟩

/-- C2: for every raw record the derived key is non-empty; it is `str()` of
the first present-and-non-empty candidate among the identity fields in
priority order (stated against the spec-side `specFirstNonEmpty`); when no
candidate matches it is the canonical sorted serialization of the whole
record; and it is a deterministic function of the record. -/
theorem record_key_spec (record : RawRecord) :
    record_key record ≠ "" ∧
    (∀ c, specFirstNonEmpty record idCandidateFields = some c →
        record_key record = pyStr c) ∧
    (specFirstNonEmpty record idCandidateFields = none →
        record_key record = dumps (Json.obj record)) ∧
    (∀ record2 : RawRecord, record = record2 → record_key record = record_key record2) := by
  refine ⟨record_key_ne_empty record, ?_, ?_, ?_⟩
  · intro c h
    have hp : pick_first record idCandidateFields = some c := by
      rw [pick_first_eq_spec]
      exact h
    rw [record_key, hp]
  · intro h
    have hp : pick_first record idCandidateFields = none := by
      rw [pick_first_eq_spec]
      exact h
    rw [record_key, hp]
  · intro record2 h
    rw [h]

/-- C2 (witness): the key of a record identified by `shortage_id` is that
id's string; a record with no identity field falls back to the sorted
serialization. -/
theorem record_key_spec_witness :
    record_key [("shortage_id", Json.str "S-100")] ≠ "" ∧
    record_key [("shortage_id", Json.str "S-100")] = pyStr (Json.str "S-100") ∧
    record_key [("drug_name", Json.str "X")]
      = dumps (Json.obj [("drug_name", Json.str "X")]) :=
  ⟨(record_key_spec _).1, (record_key_spec _).2.1 _ rfl, (record_key_spec _).2.2.1 rfl⟩

/-- C3 (counterexample): the claim says fetch fails whenever the top-level
`results` field is missing; on the payload `{}` (no `results`) the code
instead defaults to the empty list and succeeds. -/
theorem fetch_missing_results_ok :
    fetch_shortage_records (Except.ok (Json.obj [])) = Except.ok [] ∧
    ∀ e, fetch_shortage_records (Except.ok (Json.obj [])) ≠ Except.error e := by
  refine ⟨rfl, ?_⟩
  intro e h
  rw [show fetch_shortage_records (Except.ok (Json.obj [])) = Except.ok [] from rfl] at h
  exact Except.noConfusion h

/-- C3 (amended): the fetch fails with the malformed-response error exactly
when `results` is present and not a list.  All three cases are covered: a
missing `results` defaults to the empty list and the fetch succeeds with no
records; a present list-valued `results` succeeds with its object-shaped
items (non-dict items silently dropped); a present non-list `results`
fails, and a tracking run with such a payload fails before touching the
stored snapshot. -/
theorem fetch_results_guard (fields : RawRecord) (stored : Option Json) (save : Bool) :
    (lookupJ fields "results" = none →
        fetch_shortage_records (Except.ok (Json.obj fields)) = Except.ok []) ∧
    (∀ items, lookupJ fields "results" = some (Json.arr items) →
      fetch_shortage_records (Except.ok (Json.obj fields))
          = Except.ok (items.filterMap (fun item =>
              match item with
              | Json.obj f => some f
              | _ => none))) ∧
    (∀ r, lookupJ fields "results" = some r → (∀ items, r ≠ Json.arr items) →
      fetch_shortage_records (Except.ok (Json.obj fields))
          = Except.error "Unexpected API response: 'results' is not a list" ∧
      track_shortages (Except.ok (Json.obj fields)) stored save
          = (Except.error "Unexpected API response: 'results' is not a list", stored)) := by
  refine ⟨?_, ?_, ?_⟩
  · intro h
    simp [fetch_shortage_records, h]
  · intro items h
    simp [fetch_shortage_records, h]
  · intro r hr hnot
    have hferr : fetch_shortage_records (Except.ok (Json.obj fields))
        = Except.error "Unexpected API response: 'results' is not a list" := by
      cases r with
      | arr items => exact absurd rfl (hnot items)
      | null => simp [fetch_shortage_records, hr]
      | bool b => simp [fetch_shortage_records, hr]
      | num m => simp [fetch_shortage_records, hr]
      | str t => simp [fetch_shortage_records, hr]
      | obj f2 => simp [fetch_shortage_records, hr]
    refine ⟨hferr, ?_⟩
    simp [track_shortages, hferr]

/-- C3 (witness): a payload with no `results` succeeds empty; a list-valued
`results` succeeds keeping only the object-shaped item; on
`{"results": "nope"}` the fetch fails with the malformed-response error and
the tracking run leaves the store unchanged. -/
theorem fetch_results_guard_witness :
    fetch_shortage_records (Except.ok (Json.obj [("meta", Json.num 3)])) = Except.ok [] ∧
    fetch_shortage_records (Except.ok (Json.obj
        [("results", Json.arr [Json.obj [("id", Json.num 1)], Json.num 5])]))
      = Except.ok [[("id", Json.num 1)]] ∧
    fetch_shortage_records (Except.ok (Json.obj [("results", Json.str "nope")]))
        = Except.error "Unexpected API response: 'results' is not a list" ∧
    track_shortages (Except.ok (Json.obj [("results", Json.str "nope")]))
        (some (Json.obj [])) true
        = (Except.error "Unexpected API response: 'results' is not a list",
            some (Json.obj [])) :=
  ⟨(fetch_results_guard _ none true).1 rfl,
    (fetch_results_guard _ none true).2.1 [Json.obj [("id", Json.num 1)], Json.num 5] rfl,
    (fetch_results_guard _ _ _).2.2 (Json.str "nope") rfl
      (fun _items h => Json.noConfusion h)⟩

/-- C4: `build_snapshot` maps each key to the normalized form of the last
input record bearing that key (last-write-wins), and a key is present in
the snapshot exactly when some input record normalizes to it.  The
function is total: no input raises. -/
theorem build_snapshot_spec (records : List RawRecord) (k : String) :
    lookupJ (build_snapshot records) k = (lastKeyed records k).map normalize_record ∧
    (k ∈ keysOf (build_snapshot records) ↔ ∃ r ∈ records, record_key r = k) := by
  refine ⟨lookupJ_build_snapshot records k, ?_⟩
  rw [mem_keysOf_iff_isSome, lookupJ_build_snapshot, ← lastKeyed_isSome_iff]
  cases lastKeyed records k <;> simp

/-- C5: every key of `keys(old) ∪ keys(new)` falls into exactly one of the
four classes added / removed / common-changed / common-unchanged, and the
three diff components are exactly the sorted images of the first three
classes. -/
theorem diff_partition (old_snapshot new_snapshot : Snapshot) (k : String) :
    ((k ∈ keysOf old_snapshot ∨ k ∈ keysOf new_snapshot) ↔
      (k ∈ addedKeys old_snapshot new_snapshot ∨ k ∈ removedKeys old_snapshot new_snapshot
        ∨ k ∈ changedKeys old_snapshot new_snapshot
        ∨ k ∈ unchangedKeys old_snapshot new_snapshot)) ∧
    ¬(k ∈ addedKeys old_snapshot new_snapshot ∧ k ∈ removedKeys old_snapshot new_snapshot) ∧
    ¬(k ∈ addedKeys old_snapshot new_snapshot ∧ k ∈ changedKeys old_snapshot new_snapshot) ∧
    ¬(k ∈ addedKeys old_snapshot new_snapshot ∧ k ∈ unchangedKeys old_snapshot new_snapshot) ∧
    ¬(k ∈ removedKeys old_snapshot new_snapshot ∧ k ∈ changedKeys old_snapshot new_snapshot) ∧
    ¬(k ∈ removedKeys old_snapshot new_snapshot ∧ k ∈ unchangedKeys old_snapshot new_snapshot) ∧
    ¬(k ∈ changedKeys old_snapshot new_snapshot ∧ k ∈ unchangedKeys old_snapshot new_snapshot) ∧
    (diff_snapshots old_snapshot new_snapshot).added
      = (sortStrings (addedKeys old_snapshot new_snapshot)).map (getJ new_snapshot) ∧
    (diff_snapshots old_snapshot new_snapshot).removed
      = (sortStrings (removedKeys old_snapshot new_snapshot)).map (getJ old_snapshot) ∧
    (diff_snapshots old_snapshot new_snapshot).changed.map Changed.key
      = (sortStrings (commonKeys old_snapshot new_snapshot)).filter
          (fun k2 => !(pyEq (getJ old_snapshot k2) (getJ new_snapshot k2))) := by
  refine ⟨?_, ?_, ?_, ?_, ?_, ?_, ?_,
    diff_added_def old_snapshot new_snapshot, diff_removed_def old_snapshot new_snapshot, ?_⟩
  · rcases Bool.eq_false_or_eq_true (pyEq (getJ old_snapshot k) (getJ new_snapshot k))
      with hb | hb <;>
      simp only [mem_addedKeys, mem_removedKeys, mem_changedKeys, mem_unchangedKeys, hb] <;>
      tauto
  · rcases Bool.eq_false_or_eq_true (pyEq (getJ old_snapshot k) (getJ new_snapshot k))
      with hb | hb <;>
      simp only [mem_addedKeys, mem_removedKeys, mem_changedKeys, mem_unchangedKeys, hb] <;>
      tauto
  · rcases Bool.eq_false_or_eq_true (pyEq (getJ old_snapshot k) (getJ new_snapshot k))
      with hb | hb <;>
      simp only [mem_addedKeys, mem_removedKeys, mem_changedKeys, mem_unchangedKeys, hb] <;>
      tauto
  · rcases Bool.eq_false_or_eq_true (pyEq (getJ old_snapshot k) (getJ new_snapshot k))
      with hb | hb <;>
      simp only [mem_addedKeys, mem_removedKeys, mem_changedKeys, mem_unchangedKeys, hb] <;>
      tauto
  · rcases Bool.eq_false_or_eq_true (pyEq (getJ old_snapshot k) (getJ new_snapshot k))
      with hb | hb <;>
      simp only [mem_addedKeys, mem_removedKeys, mem_changedKeys, mem_unchangedKeys, hb] <;>
      tauto
  · rcases Bool.eq_false_or_eq_true (pyEq (getJ old_snapshot k) (getJ new_snapshot k))
      with hb | hb <;>
      simp only [mem_addedKeys, mem_removedKeys, mem_changedKeys, mem_unchangedKeys, hb] <;>
      tauto
  · rcases Bool.eq_false_or_eq_true (pyEq (getJ old_snapshot k) (getJ new_snapshot k))
      with hb | hb <;>
      simp only [mem_addedKeys, mem_removedKeys, mem_changedKeys, mem_unchangedKeys, hb] <;>
      tauto
  · rw [diff_changed_def, changedEntries_eq, List.map_map]
    have hcomp : Changed.key ∘ (fun k2 => (⟨k2, getJ old_snapshot k2, getJ new_snapshot k2⟩ :
        Changed)) = id := funext fun k2 => rfl
    rw [hcomp, List.map_id]

/-- C6: diffing a snapshot against itself yields empty added, removed and
changed components (stated for well-formed snapshots, the only ones a
Python dict can hold). -/
theorem diff_self_empty (S : Snapshot) (h : jwf (Json.obj S) = true) :
    (diff_snapshots S S).added = [] ∧ (diff_snapshots S S).removed = [] ∧
    (diff_snapshots S S).changed = [] := by
  rw [jwf, Bool.and_eq_true] at h
  refine ⟨?_, ?_, ?_⟩
  · rw [diff_added_def]
    have hnil : addedKeys S S = [] := by
      rw [addedKeys, List.filter_eq_nil_iff]
      intro k hk
      simp [hk]
    rw [hnil]
    rfl
  · rw [diff_removed_def]
    have hnil : removedKeys S S = [] := by
      rw [removedKeys, List.filter_eq_nil_iff]
      intro k hk
      simp [hk]
    rw [hnil]
    rfl
  · rw [diff_changed_def, changedEntries_eq]
    have hnil : (sortStrings (commonKeys S S)).filter
        (fun k => !(pyEq (getJ S k) (getJ S k))) = [] := by
      rw [List.filter_eq_nil_iff]
      intro k hk
      have hkS : k ∈ keysOf S := (mem_commonKeys.mp (mem_sortStrings.mp hk)).1
      have hsome : (lookupJ S k).isSome = true := mem_keysOf_iff_isSome.mp hkS
      obtain ⟨v, hv⟩ := Option.isSome_iff_exists.mp hsome
      have hgv : getJ S k = v := by rw [getJ, hv]; rfl
      have hwfv : jwf v = true := jwfFields_mem h.2 (lookupJ_mem hv)
      rw [hgv]
      simp [pyEq_refl hwfv]
    rw [hnil]
    rfl

/-- C6 (witness): a concrete well-formed snapshot diffed against itself. -/
theorem diff_self_empty_witness :
    jwf (Json.obj [("a", Json.obj [("key", Json.str "a")])]) = true ∧
    ((diff_snapshots [("a", Json.obj [("key", Json.str "a")])]
        [("a", Json.obj [("key", Json.str "a")])]).added = [] ∧
      (diff_snapshots [("a", Json.obj [("key", Json.str "a")])]
        [("a", Json.obj [("key", Json.str "a")])]).removed = [] ∧
      (diff_snapshots [("a", Json.obj [("key", Json.str "a")])]
        [("a", Json.obj [("key", Json.str "a")])]).changed = []) :=
  ⟨rfl, diff_self_empty _ rfl⟩

/-- C7: saving a well-formed snapshot and loading it back succeeds and
reproduces a snapshot that is Python-equal to the original (the stored
form is key-sorted, which Python dict equality ignores). -/
theorem save_load_roundtrip (S : Snapshot) (h : jwf (Json.obj S) = true) :
    ∃ loaded, load_snapshot (save_snapshot S) = Except.ok loaded ∧
      pyEq (Json.obj loaded) (Json.obj S) = true := by
  have hpy := pyEq_storeParse (j := Json.obj S) h
  rw [storeParse] at hpy
  exact ⟨_, rfl, hpy⟩

/-- C7 (witness): a two-entry snapshot stored out of key order loads back
Python-equal to itself. -/
theorem save_load_roundtrip_witness :
    jwf (Json.obj [("b", Json.obj [("key", Json.str "b")]),
        ("a", Json.obj [("key", Json.str "a")])]) = true ∧
    (∃ loaded, load_snapshot (save_snapshot [("b", Json.obj [("key", Json.str "b")]),
        ("a", Json.obj [("key", Json.str "a")])]) = Except.ok loaded ∧
      pyEq (Json.obj loaded) (Json.obj [("b", Json.obj [("key", Json.str "b")]),
        ("a", Json.obj [("key", Json.str "a")])]) = true) :=
  ⟨rfl, save_load_roundtrip _ rfl⟩

/-- C8: loading from a location with no stored snapshot returns the empty
snapshot (first run, no error); loading content that is not an
object-shaped mapping fails with the corrupt-store error. -/
theorem load_snapshot_contract :
    load_snapshot none = Except.ok [] ∧
    ∀ j, isObj j = false →
      load_snapshot (some j) = Except.error "Snapshot file is invalid JSON object" := by
  refine ⟨rfl, ?_⟩
  intro j h
  cases j with
  | obj fields => simp [isObj] at h
  | null => rfl
  | bool b => rfl
  | num n => rfl
  | str t => rfl
  | arr items => rfl

/-- C8 (witness): loading the non-object document `"zap"` fails with the
corrupt-store error. -/
theorem load_snapshot_contract_witness :
    load_snapshot none = Except.ok [] ∧
    load_snapshot (some (Json.str "zap"))
      = Except.error "Snapshot file is invalid JSON object" :=
  ⟨load_snapshot_contract.1, load_snapshot_contract.2 (Json.str "zap") rfl⟩

/-- C9: a tracking run that fails at any step leaves the store exactly as it
was; the store changes only on a successful run with saving enabled. -/
theorem track_atomic (response : Except String Json) (stored : Option Json) (save : Bool) :
    (∀ e, (track_shortages response stored save).1 = Except.error e →
        (track_shortages response stored save).2 = stored) ∧
    (save = false → (track_shortages response stored save).2 = stored) ∧
    ((track_shortages response stored save).2 ≠ stored →
        save = true ∧ ∃ total d, (track_shortages response stored save).1
          = Except.ok (total, d)) := by
  unfold track_shortages
  cases hf : fetch_shortage_records response with
  | error e0 =>
    exact ⟨fun e h => rfl, fun hs => rfl, fun hne => absurd rfl hne⟩
  | ok records =>
    cases hl : load_snapshot stored with
    | error e0 =>
      exact ⟨fun e h => rfl, fun hs => rfl, fun hne => absurd rfl hne⟩
    | ok old_snapshot =>
      cases save with
      | false =>
        exact ⟨fun e h => Except.noConfusion h, fun hs => rfl, fun hne => absurd rfl hne⟩
      | true =>
        refine ⟨fun e h => Except.noConfusion h, fun hs => Bool.noConfusion hs,
          fun hne => ⟨rfl, records.length,
            diff_snapshots old_snapshot (build_snapshot records), rfl⟩⟩

/-- C9 (witness): a run whose fetch fails leaves the concrete store
untouched. -/
theorem track_atomic_witness :
    (track_shortages (Except.error "boom") (some (Json.num 7)) true).2
      = some (Json.num 7) :=
  (track_atomic (Except.error "boom") (some (Json.num 7)) true).1 "boom" rfl

/-- C10: the derived key is `str()` of the first candidate value that is
neither `None` nor the empty string; the JSON number `1` and the JSON
string `"1"` both key to `"1"` and collapse to one (last-write-wins)
snapshot entry; falsy-but-non-empty identities `0` and `false` are kept. -/
theorem identity_key_coercion :
    (∀ (record : RawRecord) (c : Json),
        pick_first record idCandidateFields = some c → record_key record = pyStr c) ∧
    record_key [("id", Json.num 1)] = "1" ∧
    record_key [("id", Json.str "1")] = "1" ∧
    build_snapshot [[("id", Json.num 1)], [("id", Json.str "1")]]
      = [("1", normalize_record [("id", Json.str "1")])] ∧
    record_key [("id", Json.num 0)] = "0" ∧
    record_key [("id", Json.bool false)] = "False" := by
  refine ⟨?_, rfl, rfl, rfl, rfl, rfl⟩
  intro record c h
  rw [record_key, h]

/-- C10 (witness): the coercion rule applied at the record `{"id": 1}`. -/
theorem identity_key_coercion_witness :
    pick_first [("id", Json.num 1)] idCandidateFields = some (Json.num 1) ∧
    record_key [("id", Json.num 1)] = pyStr (Json.num 1) :=
  ⟨rfl, identity_key_coercion.1 [("id", Json.num 1)] (Json.num 1) rfl⟩

end Tracker
